import Mathlib

/-!
Verification development for a rotating on-disk spool of telemetry span
batches (Go package `trace` of the go-otel-exporter-files repository).

The development shallowly embeds the program:

  - bytes are `Nat` values (the writer only ever produces values < 256);
  - the binary framing codec of `marshalSpans` (writer side) and
    `ImportTraceFile` (reader side) operates on `List Nat`;
  - the file and folder naming scheme (`makeOutputFileName`,
    `makeOutputFolderPath`) is the fixed-alphabet base-32 encoding of
    big-endian byte strings, with no padding;
  - the rotation state machine of `prepareOutputFp` / `ExportSpans` is an
    explicit state-passing function over `ExpState`; disk effects become
    an event trace (`FileEvent`) and I/O failures an explicit oracle
    (`ExpOracle`); the success flag of the actual span write is a
    separate argument of `exportSpans` because `prepareOutputFp` never
    performs that write;
  - protobuf (de)serialization of individual span records is an external
    collaborator of the program and is kept at the byte-string interface
    boundary: records stay raw byte strings on both sides.

Go `int` is modelled as a 64-bit integer, the width of every platform
this module is built for; `goIntOfUint32` records the consequence that
`int(binary.LittleEndian.Uint32(...))` is never negative there.
-/

namespace OtelExporterFiles

/-! ## Naming scheme -/

/-- The fixed base-32 alphabet `0123456789abcdefghijklmnopqrstuv` of the
source's `b32Enc`, used with no padding. -/
def b32Alphabet : List Char := "0123456789abcdefghijklmnopqrstuv".toList

/-- Character for one 5-bit digit. -/
def b32Digit (d : Nat) : Char := b32Alphabet.getD d '0'

/-- Base-32 encoding (no padding) of the `numBytes`-byte big-endian value
`v`: the bit string of the bytes is cut into 5-bit groups MSB-first and
the final group is padded on the right with zero bits, exactly as Go's
`encoding/base32` does. -/
def b32EncodeValue (numBytes : Nat) (v : Nat) : List Nat :=
  let numChars := (8 * numBytes + 4) / 5
  let m := v * 2 ^ (5 * numChars - 8 * numBytes)
  (List.range numChars).map (fun i => m / 2 ^ (5 * (numChars - 1 - i)) % 32)

/-- Go `int32` wrap-around of an integer. -/
def toInt32 (x : Int) : Int := (x + 2 ^ 31) % 2 ^ 32 - 2 ^ 31

/-- Go `uint32(x)` of an integer, as a natural number. -/
def toUInt32Nat (x : Int) : Nat := (x % (2 ^ 32 : Int)).toNat

/-- Go `uint16(x)` of an integer, as a natural number. -/
def toUInt16Nat (x : Int) : Nat := (x % (2 ^ 16 : Int)).toNat

/-- `makeOutputFileName` of the source: serials above `0xFFFF` are
big-endian encoded into 4 bytes, all others into 2 bytes, then base-32
encoded. -/
def makeOutputFileName (outputSn : Int) : String :=
  if outputSn > 0xFFFF then
    String.mk ((b32EncodeValue 4 (toUInt32Nat outputSn)).map b32Digit)
  else
    String.mk ((b32EncodeValue 2 (toUInt16Nat outputSn)).map b32Digit)

/-- `makeOutputFolderPath` of the source: base-32 encoding of the low 3
bytes of `uint32(outputHour)` (Go big-endian encodes the hour into 4
bytes and drops `buf[0]`), joined under the base folder. -/
def makeOutputFolderPath (baseFolderPath : String) (outputHour : Int) : String :=
  baseFolderPath ++ "/" ++
    String.mk ((b32EncodeValue 3 (toUInt32Nat outputHour % 2 ^ 24)).map b32Digit)

/-! ## Binary framing codec, writer side (`marshalSpans`) -/

/-- 4-byte little-endian encoding of `uint32(n)`
(`binary.LittleEndian.PutUint32`). -/
def u32le (n : Nat) : List Nat :=
  [n % 256, n / 256 % 256, n / 65536 % 256, n / 16777216 % 256]

/-- One framed record: a 4-byte little-endian length, then the raw bytes
(the size `marshalSpans` back-patches equals the length of the appended
record). -/
def frameRecord (r : List Nat) : List Nat := u32le r.length ++ r

/-- Concatenation of framed records, in order. -/
def framesOf : List (List Nat) → List Nat
  | [] => []
  | r :: rs => frameRecord r ++ framesOf rs

/-- The `marshalSpans` framing: no output at all for an empty batch,
otherwise a 4-byte little-endian record count followed by the framed
records. -/
def marshalFrames (rs : List (List Nat)) : List Nat :=
  if rs.length = 0 then [] else u32le rs.length ++ framesOf rs

/-- Concatenation of several encoded batches, as successive export calls
lay them out in one segment file. -/
def encodeBatches : List (List (List Nat)) → List Nat
  | [] => []
  | rs :: bss => marshalFrames rs ++ encodeBatches bss

/-! ## Binary framing codec, reader side (`ImportTraceFile`) -/

/-- Error outcomes of file replay, one per distinct error return of
`ImportTraceFile`.  `corruptSize` is the `invalid span size` return for a
negative size; `uploadErr` is a failure of the uploader collaborator.
Protobuf deserialization of a record payload is outside the byte-level
model. -/
inductive ImportError where
  | truncCount
  | truncSize
  | truncPayload
  | corruptSize
  | uploadErr
deriving DecidableEq, Repr

/-- Go's `int(binary.LittleEndian.Uint32(...))` conversion of the span
size.  `int` is 64 bits wide on the platforms this module targets, so
the conversion is value-preserving and the result is never negative. -/
def goIntOfUint32 (n : Nat) : Int := Int.ofNat n

/-- The inner loop of `ImportTraceFile`: read 4-byte little-endian length
headers until `remain` records of non-zero length have been collected in
`acc`.  A header read that cannot fill 4 bytes fails (`io.ReadFull`
returns an error even for a clean EOF here); a zero length is skipped
without consuming payload and without decrementing `remain`; the
negative-size check precedes the zero check as in the source. -/
def importSpanRecords : Nat → List (List Nat) → List Nat →
    Except ImportError (List (List Nat) × List Nat)
  | 0, acc, bytes => .ok (acc, bytes)
  | _ + 1, _, [] => .error .truncSize
  | _ + 1, _, [_] => .error .truncSize
  | _ + 1, _, [_, _] => .error .truncSize
  | _ + 1, _, [_, _, _] => .error .truncSize
  | remain + 1, acc, b0 :: b1 :: b2 :: b3 :: rest =>
    if goIntOfUint32 (b0 + b1 * 256 + b2 * 65536 + b3 * 16777216) < 0 then
      .error .corruptSize
    else if b0 + b1 * 256 + b2 * 65536 + b3 * 16777216 = 0 then
      importSpanRecords (remain + 1) acc rest
    else if rest.length < b0 + b1 * 256 + b2 * 65536 + b3 * 16777216 then
      .error .truncPayload
    else
      importSpanRecords remain
        (acc ++ [rest.take (b0 + b1 * 256 + b2 * 65536 + b3 * 16777216)])
        (rest.drop (b0 + b1 * 256 + b2 * 65536 + b3 * 16777216))
termination_by _ _ bytes => bytes.length
decreasing_by
  · simp
    omega
  · simp [List.length_drop]
    omega

/-- The outer loop of `ImportTraceFile`: `io.EOF` exactly at the start of
a 4-byte count field ends replay cleanly; a count field cut short is a
truncation error; each decoded batch with at least one record goes to
the uploader, whose failure stops replay.  `acc` collects the uploaded
batches in order. -/
def importBatches (upload : List (List Nat) → Bool) :
    List Nat → List (List (List Nat)) → Except ImportError (List (List (List Nat)))
  | [], acc => .ok acc
  | [_], _ => .error .truncCount
  | [_, _], _ => .error .truncCount
  | [_, _, _], _ => .error .truncCount
  | b0 :: b1 :: b2 :: b3 :: rest, acc =>
    match h2 : importSpanRecords (b0 + b1 * 256 + b2 * 65536 + b3 * 16777216) [] rest with
    | .error e => .error e
    | .ok (records, rest2) =>
      if records.length > 0 then
        if upload records then importBatches upload rest2 (acc ++ [records])
        else .error .uploadErr
      else importBatches upload rest2 acc
termination_by bytes _ => bytes.length
decreasing_by
  all_goals
    have key : ∀ (remain : Nat) (acc1 : List (List Nat)) (bytes : List Nat)
        (recs : List (List Nat)) (left : List Nat),
        importSpanRecords remain acc1 bytes = .ok (recs, left) →
        left.length ≤ bytes.length := by
      intro remain acc1 bytes
      induction remain, acc1, bytes using importSpanRecords.induct with
      | case1 acc1 bytes =>
        intro recs left h
        simp only [importSpanRecords, Except.ok.injEq, Prod.mk.injEq] at h
        rw [← h.2]
      | case2 n acc1 =>
        intro recs left h
        simp [importSpanRecords] at h
      | case3 n acc1 h0 =>
        intro recs left h
        simp [importSpanRecords] at h
      | case4 n acc1 h0 h1 =>
        intro recs left h
        simp [importSpanRecords] at h
      | case5 n acc1 h0 h1 hx =>
        intro recs left h
        simp [importSpanRecords] at h
      | case6 remain acc1 c0 c1 c2 c3 tail hneg =>
        intro recs left h
        simp only [importSpanRecords, if_pos hneg] at h
        simp at h
      | case7 remain acc1 c0 c1 c2 c3 tail hneg hzero ih =>
        intro recs left h
        simp only [importSpanRecords, if_neg hneg, if_pos hzero] at h
        have := ih recs left h
        simp
        omega
      | case8 remain acc1 c0 c1 c2 c3 tail hneg hzero hshort =>
        intro recs left h
        simp only [importSpanRecords, if_neg hneg, if_neg hzero, if_pos hshort] at h
        simp at h
      | case9 remain acc1 c0 c1 c2 c3 tail hneg hzero hshort ih =>
        intro recs left h
        simp only [importSpanRecords, if_neg hneg, if_neg hzero, if_neg hshort] at h
        have := ih recs left h
        simp [List.length_drop] at this
        simp
        omega
    have h2l := key _ _ _ _ _ h2
    simp
    omega

/-- `ImportTraceFile` over the byte content of one trace file, with the
uploader collaborator abstracted to a success predicate on the decoded
batch. -/
def importTraceFile (upload : List (List Nat) → Bool) (bytes : List Nat) :
    Except ImportError (List (List (List Nat))) :=
  importBatches upload bytes []

/-- A batch the writer can produce from non-empty serialized records and
that the uploader accepts: non-empty, count and record lengths
representable in 32 bits, every record non-empty. -/
def GoodBatch (upload : List (List Nat) → Bool) (rs : List (List Nat)) : Prop :=
  rs ≠ [] ∧ rs.length < 2 ^ 32 ∧ (∀ r ∈ rs, r ≠ [] ∧ r.length < 2 ^ 32) ∧
    upload rs = true

/-- All batches of a file are good batches. -/
def GoodBatches (upload : List (List Nat) → Bool) (bss : List (List (List Nat))) : Prop :=
  ∀ rs ∈ bss, GoodBatch upload rs

/-! ## Folder replay (`ImportTraceFolder`) -/

/-- One entry of a directory listing.  Names are byte strings; ASCII
characters stand for themselves, so the first byte of the Go string and
the first character here agree on `_` and `.`. -/
structure DirEntry where
  name : List Char
  isDir : Bool
deriving DecidableEq, Repr

/-- The skip test of `ImportTraceFolder`: names longer than one character
whose first character is an underscore or a dot. -/
def skipEntryName : List Char → Bool
  | [] => false
  | c :: rest => decide (rest.length + 1 > 1) && (c == '_' || c == '.')

/-- `ImportTraceFolder`: walk the listing in order, skip subdirectories
and skipped names, replay each remaining file, and stop at the first
file whose replay errors.  The result pairs the names replay was invoked
on, in invocation order, with the error of the failing file if any.
`contents` gives each file's bytes. -/
def importTraceFolder (upload : List (List Nat) → Bool) (contents : List Char → List Nat) :
    List DirEntry → List (List Char) × Option ImportError
  | [] => ([], none)
  | e :: rest =>
    if e.isDir then importTraceFolder upload contents rest
    else if skipEntryName e.name then importTraceFolder upload contents rest
    else
      match importTraceFile upload (contents e.name) with
      | .error err => ([e.name], some err)
      | .ok _ =>
        let r := importTraceFolder upload contents rest
        (e.name :: r.1, r.2)

/-- Modelled from the spec's words for `ReplayFolder`: an entry is kept
when it is not a subdirectory and its name is not skipped. -/
def specKeepEntry (e : DirEntry) : Bool := !e.isDir && !skipEntryName e.name

/-- Modelled from the spec's words for `ReplayFolder`: replay the kept
names one by one, in listing order with no re-sorting, stopping at the
first name whose file replay returns an error. -/
def specReplayRun (upload : List (List Nat) → Bool) (contents : List Char → List Nat) :
    List (List Char) → List (List Char) × Option ImportError
  | [] => ([], none)
  | n :: rest =>
    match importTraceFile upload (contents n) with
    | .error err => ([n], some err)
    | .ok _ =>
      let r := specReplayRun upload contents rest
      (n :: r.1, r.2)

/-! ## Rotation state machine (`FilesTraceExporter`) -/

/-- Observable disk effects of the exporter, in program order. -/
inductive FileEvent where
  | mkdirFolder (path : String)
  | openFile (path : String)
  | closeFile (name : String)
  | indexAppend (name : String)
  | writeTimestamp (folder : String)
  | removeFolder (path : String)
  | writeBytes (n : Nat)
deriving DecidableEq, Repr

/-- The `Config` fields the rotation machine reads. -/
structure ExpCfg where
  baseFolderPath : String
  retainHours : Int
  fileSizeLimit : Nat
deriving DecidableEq, Repr

/-- The mutable fields of `FilesTraceExporter`; `fpOpen` stands for
`outputFp != nil` and timestamps are UNIX seconds. -/
structure ExpState where
  outputFolderPath : String
  indexFilePath : String
  outputHour : Int
  outputSn : Int
  outputFileName : String
  fpOpen : Bool
  outputStartAt : Nat
  outputLastWriteAt : Nat
  currentSize : Nat
deriving DecidableEq, Repr

/-- Success flags for the I/O operations of one rotation: closing the
segment file, appending the index record, writing the timestamp marker,
creating the folder, opening the new segment file, and removing an
expired folder. -/
structure ExpOracle where
  closeOk : Bool
  indexOk : Bool
  tsOk : Bool
  mkdirOk : Bool
  openOk : Bool
  removeOk : Bool
deriving DecidableEq, Repr

/-- The state of a fresh exporter (`NewFilesTraceExporter`). -/
def initialExpState : ExpState := ⟨"", "", 0, 0, "", false, 0, 0, 0⟩

/-- `closeOutputFile`: a no-op when no file is open, otherwise close the
handle, zero the accumulated size, append an index record (when that
succeeds), and increment the serial number; close and index errors are
joined into the returned flag. -/
def closeOutputFile (o : ExpOracle) (s : ExpState) : ExpState × List FileEvent × Bool :=
  if s.fpOpen = false then (s, [], false)
  else
    ({ s with fpOpen := false, currentSize := 0, outputSn := s.outputSn + 1 },
     FileEvent.closeFile s.outputFileName
       :: (if o.indexOk = true then [FileEvent.indexAppend s.outputFileName] else []),
     !o.closeOk || !o.indexOk)

/-- `closeOutputFolder`: a no-op when no folder is set, otherwise write
the `_t` timestamp marker. -/
def closeOutputFolder (o : ExpOracle) (s : ExpState) : List FileEvent × Bool :=
  if s.outputFolderPath = "" then ([], false)
  else if o.tsOk = true then ([FileEvent.writeTimestamp s.outputFolderPath], false)
  else ([], true)

/-- `prepareOutputFolder`: create the folder for the masked hour and, on
success, set the folder path, the index file path, the hour, and reset
the serial to 0. -/
def prepareOutputFolder (cfg : ExpCfg) (o : ExpOracle) (s : ExpState) (outputHour : Int) :
    ExpState × List FileEvent × Bool :=
  let p := makeOutputFolderPath cfg.baseFolderPath outputHour
  if o.mkdirOk = false then (s, [], true)
  else
    ({ s with
       outputFolderPath := p,
       indexFilePath := p ++ "/_index",
       outputHour := outputHour,
       outputSn := 0 },
     [FileEvent.mkdirFolder p], false)

/-- The source's `purgeRangeCount` constant. -/
def purgeRangeCount : Nat := 2

/-- The loop body of `purgeRecentExpiredOutputFolders`: for each offset,
stop as soon as the expired hour is negative, otherwise recursively
remove the folder of the hour masked to 24 bits, collecting removal
failures. -/
def purgeLoop (cfg : ExpCfg) (o : ExpOracle) (expiredHourBase : Int) :
    List Nat → List FileEvent × Bool
  | [] => ([], false)
  | off :: rest =>
    let expiredHour := toInt32 (expiredHourBase - (off : Int))
    if expiredHour < 0 then ([], false)
    else
      let p := makeOutputFolderPath cfg.baseFolderPath (expiredHour % 16777216)
      let r := purgeLoop cfg o expiredHourBase rest
      (FileEvent.removeFolder p :: r.1, !o.removeOk || r.2)

/-- `purgeRecentExpiredOutputFolders`: a no-op when `retainHours < 1`;
otherwise the unmasked current hour is truncated to `int32` and the loop
runs over the offsets `0` and `1` below `currentHour - retainHours - 1`,
with `int32` wrap-around on every subtraction as in Go. -/
def purgeRecentExpiredOutputFolders (cfg : ExpCfg) (o : ExpOracle) (now : Nat) :
    List FileEvent × Bool :=
  if cfg.retainHours < 1 then ([], false)
  else
    purgeLoop cfg o (toInt32 (toInt32 ((now / 3600 : Nat) : Int) - cfg.retainHours - 1))
      (List.range purgeRangeCount)

/-- The source's `outputSnBoundary` constant. -/
def outputSnBoundary : Int := 0x7FFFFFFD

/-- The tail of `prepareOutputFp`: when the serial about to be used
exceeds the boundary, return silently with no file opened; otherwise
create and truncate the segment file and, on success, record its name
and set both timestamps. -/
def openOutputFile (o : ExpOracle) (s : ExpState) (now : Nat) (evs : List FileEvent) :
    ExpState × List FileEvent × Bool :=
  if s.outputSn > outputSnBoundary then (s, evs, false)
  else if o.openOk = false then (s, evs, true)
  else
    ({ s with
       outputFileName := makeOutputFileName s.outputSn,
       fpOpen := true,
       outputStartAt := now,
       outputLastWriteAt := now },
     evs ++ [FileEvent.openFile (s.outputFolderPath ++ "/" ++ makeOutputFileName s.outputSn)],
     false)

/-- `prepareOutputFp` at wall-clock second `now` for an encoded record of
`recordSize` bytes.  In the same masked hour the file stays open exactly
when its size is non-zero and fits the limit with the new record;
otherwise the file is closed (and the folder re-created if lost).  On an
hour change the file is closed, the folder retired, the new folder
prepared and the retention purge runs with its error discarded. -/
def prepareOutputFp (cfg : ExpCfg) (o : ExpOracle) (s : ExpState) (now : Nat)
    (recordSize : Nat) : ExpState × List FileEvent × Bool :=
  if ((now / 3600 % 16777216 : Nat) : Int) = s.outputHour then
    if s.currentSize ≠ 0 ∧ s.currentSize + recordSize ≤ cfg.fileSizeLimit then (s, [], false)
    else
      let r1 := closeOutputFile o s
      if r1.2.2 = true then r1
      else if r1.1.outputFolderPath = "" then
        let r2 := prepareOutputFolder cfg o r1.1 ((now / 3600 % 16777216 : Nat) : Int)
        if r2.2.2 = true then (r2.1, r1.2.1 ++ r2.2.1, true)
        else openOutputFile o r2.1 now (r1.2.1 ++ r2.2.1)
      else openOutputFile o r1.1 now r1.2.1
  else
    let r1 := closeOutputFile o s
    let r2 := closeOutputFolder o r1.1
    if r1.2.2 = true ∨ r2.2 = true then (r1.1, r1.2.1 ++ r2.1, true)
    else
      let r3 := prepareOutputFolder cfg o r1.1 ((now / 3600 % 16777216 : Nat) : Int)
      if r3.2.2 = true then (r3.1, r1.2.1 ++ r2.1 ++ r3.2.1, true)
      else
        openOutputFile o r3.1 now
          (r1.2.1 ++ r2.1 ++ r3.2.1 ++ (purgeRecentExpiredOutputFolders cfg o now).1)

/-- `ExportSpans` with the records already serialized: an empty batch is
a no-op; otherwise run `prepareOutputFp` sized to the encoded buffer,
return its error if any, return success when no file handle is
available, and otherwise write the buffer (`w` is the write's success
flag), then unconditionally update the last-write timestamp and add the
buffer length to the accumulated size. -/
def exportSpans (cfg : ExpCfg) (o : ExpOracle) (w : Bool) (s : ExpState) (now : Nat)
    (records : List (List Nat)) : ExpState × List FileEvent × Bool :=
  if records.length = 0 then (s, [], false)
  else
    let r := prepareOutputFp cfg o s now (marshalFrames records).length
    if r.2.2 = true then r
    else if r.1.fpOpen = false then (r.1, r.2.1, false)
    else
      ({ r.1 with
         outputLastWriteAt := now,
         currentSize := r.1.currentSize + (marshalFrames records).length },
       r.2.1 ++ [FileEvent.writeBytes (marshalFrames records).length],
       !w)

theorem importSpanRecords_frames (rs : List (List Nat)) :
    ∀ (k : Nat) (acc : List (List Nat)) (rest : List Nat),
    (∀ r ∈ rs, r ≠ [] ∧ r.length < 2 ^ 32) →
    importSpanRecords (rs.length + k) acc (framesOf rs ++ rest) =
      importSpanRecords k (acc ++ rs) rest := by
  induction rs with
  | nil => intro k acc rest _; simp [framesOf]
  | cons r rs ih =>
    intro k acc rest h
    obtain ⟨hr, hrlen⟩ := h r (by simp)
    have hlen0 : r.length ≠ 0 := by simpa using hr
    have hshape : framesOf (r :: rs) ++ rest
        = (r.length % 256) :: (r.length / 256 % 256) :: (r.length / 65536 % 256)
          :: (r.length / 16777216 % 256) :: (r ++ (framesOf rs ++ rest)) := by
      simp [framesOf, frameRecord, u32le, List.append_assoc]
    rw [hshape]
    have hsucc : (r :: rs).length + k = (rs.length + k) + 1 := by simp; omega
    rw [hsucc]
    simp only [importSpanRecords]
    have hmod : r.length % 256 + r.length / 256 % 256 * 256 + r.length / 65536 % 256 * 65536
        + r.length / 16777216 % 256 * 16777216 = r.length := by omega
    rw [hmod]
    rw [if_neg (by simp [goIntOfUint32])]
    rw [if_neg hlen0]
    rw [if_neg (by simp)]
    rw [List.take_left, List.drop_left]
    rw [ih k (acc ++ [r]) rest (fun r' hr' => h r' (by simp [hr']))]
    simp

theorem importBatches_marshal (upload : List (List Nat) → Bool) (rs : List (List Nat))
    (hne : rs ≠ []) (hcount : rs.length < 2 ^ 32)
    (hrec : ∀ r ∈ rs, r ≠ [] ∧ r.length < 2 ^ 32) (hup : upload rs = true)
    (t : List Nat) (acc : List (List (List Nat))) :
    importBatches upload (marshalFrames rs ++ t) acc = importBatches upload t (acc ++ [rs]) := by
  have hlen0 : rs.length ≠ 0 := by simpa using hne
  have hshape : marshalFrames rs ++ t
      = (rs.length % 256) :: (rs.length / 256 % 256) :: (rs.length / 65536 % 256)
        :: (rs.length / 16777216 % 256) :: (framesOf rs ++ t) := by
    simp [marshalFrames, hlen0, u32le, List.append_assoc]
  rw [hshape]
  simp only [importBatches]
  have hmod : rs.length % 256 + rs.length / 256 % 256 * 256 + rs.length / 65536 % 256 * 65536
      + rs.length / 16777216 % 256 * 16777216 = rs.length := by omega
  rw [hmod]
  have hrun : importSpanRecords rs.length [] (framesOf rs ++ t) = .ok (rs, t) := by
    have := importSpanRecords_frames rs 0 [] t hrec
    simpa [importSpanRecords] using this
  split
  · next e heq => rw [hrun] at heq; simp at heq
  · next records rest2 heq =>
    rw [hrun] at heq
    simp at heq
    obtain ⟨h1, h2⟩ := heq
    subst h1; subst h2
    rw [if_pos (Nat.pos_of_ne_zero hlen0), if_pos hup]

theorem importBatches_encodeBatches (upload : List (List Nat) → Bool) :
    ∀ (bss : List (List (List Nat))), (∀ rs ∈ bss, GoodBatch upload rs) →
    ∀ (t : List Nat) (acc : List (List (List Nat))),
    importBatches upload (encodeBatches bss ++ t) acc = importBatches upload t (acc ++ bss) := by
  intro bss
  induction bss with
  | nil => intro _ t acc; simp [encodeBatches]
  | cons rs bss ih =>
    intro h t acc
    obtain ⟨h1, h2, h3, h4⟩ := h rs (by simp)
    rw [show encodeBatches (rs :: bss) ++ t = marshalFrames rs ++ (encodeBatches bss ++ t) by
      simp [encodeBatches, List.append_assoc]]
    rw [importBatches_marshal upload rs h1 h2 h3 h4]
    rw [ih (fun rs' hrs' => h rs' (by simp [hrs'])) t (acc ++ [rs])]
    simp

theorem readFourShort (upload : List (List Nat) → Bool) (c : List Nat) (acc : List (List (List Nat)))
    (hne : c ≠ []) (hlt : c.length < 4) :
    importBatches upload c acc = .error .truncCount := by
  match c with
  | [] => simp at hne
  | [a] => simp [importBatches]
  | [a, b] => simp [importBatches]
  | [a, b, d] => simp [importBatches]
  | a :: b :: d :: e :: t => exfalso; simp only [List.length_cons] at hlt; omega

theorem innerShort (remain : Nat) (acc : List (List Nat)) (c : List Nat) (hlt : c.length < 4) :
    importSpanRecords (remain + 1) acc c = .error .truncSize := by
  match c with
  | [] => simp [importSpanRecords]
  | [a] => simp [importSpanRecords]
  | [a, b] => simp [importSpanRecords]
  | [a, b, d] => simp [importSpanRecords]
  | a :: b :: d :: e :: t => exfalso; simp only [List.length_cons] at hlt; omega

theorem innerPayloadTrunc (remain : Nat) (acc : List (List Nat)) (L : Nat) (p : List Nat)
    (hL : L % 2 ^ 32 ≠ 0) (hp : p.length < L % 2 ^ 32) :
    importSpanRecords (remain + 1) acc (u32le L ++ p) = .error .truncPayload := by
  have hshape : u32le L ++ p
      = (L % 256) :: (L / 256 % 256) :: (L / 65536 % 256) :: (L / 16777216 % 256) :: p := by
    simp [u32le]
  rw [hshape]
  simp only [importSpanRecords]
  have hmod : L % 256 + L / 256 % 256 * 256 + L / 65536 % 256 * 65536
      + L / 16777216 % 256 * 16777216 = L % 2 ^ 32 := by omega
  rw [hmod]
  rw [if_neg (by simp [goIntOfUint32]; omega)]
  rw [if_neg hL]
  rw [if_pos hp]

theorem importBatches_step (upload : List (List Nat) → Bool) (n : Nat) (c : List Nat)
    (acc : List (List (List Nat))) :
    importBatches upload (u32le n ++ c) acc =
      match importSpanRecords (n % 2 ^ 32) [] c with
      | .error e => .error e
      | .ok (records, rest2) =>
        if records.length > 0 then
          if upload records then importBatches upload rest2 (acc ++ [records])
          else .error .uploadErr
        else importBatches upload rest2 acc := by
  have hshape : u32le n ++ c
      = (n % 256) :: (n / 256 % 256) :: (n / 65536 % 256) :: (n / 16777216 % 256) :: c := by
    simp [u32le]
  rw [hshape]
  simp only [importBatches]
  have hmod : n % 256 + n / 256 % 256 * 256 + n / 65536 % 256 * 65536
      + n / 16777216 % 256 * 16777216 = n % 2 ^ 32 := by omega
  rw [hmod]
  split
  · next e heq => rw [heq]
  · next records rest2 heq => rw [heq]

theorem batchHeaderThenShort (upload : List (List Nat) → Bool) (n : Nat) (c : List Nat)
    (acc : List (List (List Nat))) (hn : n % 2 ^ 32 ≠ 0) (hc : c.length < 4) :
    importBatches upload (u32le n ++ c) acc = .error .truncSize := by
  have hshape : u32le n ++ c
      = (n % 256) :: (n / 256 % 256) :: (n / 65536 % 256) :: (n / 16777216 % 256) :: c := by
    simp [u32le]
  rw [hshape]
  simp only [importBatches]
  have hmod : n % 256 + n / 256 % 256 * 256 + n / 65536 % 256 * 65536
      + n / 16777216 % 256 * 16777216 = n % 2 ^ 32 := by omega
  rw [hmod]
  obtain ⟨m, hm⟩ := Nat.exists_eq_succ_of_ne_zero hn
  rw [hm]
  have hrun : importSpanRecords (m + 1) [] c = .error .truncSize := innerShort m [] c hc
  split
  · next e heq => rw [hrun] at heq; simp at heq; rw [heq]
  · next records rest2 heq => rw [hrun] at heq; simp at heq

theorem batchHeaderThenPayloadTrunc (upload : List (List Nat) → Bool) (n L : Nat)
    (p : List Nat) (acc : List (List (List Nat)))
    (hn : n % 2 ^ 32 ≠ 0) (hL : L % 2 ^ 32 ≠ 0) (hp : p.length < L % 2 ^ 32) :
    importBatches upload (u32le n ++ (u32le L ++ p)) acc = .error .truncPayload := by
  have hshape : u32le n ++ (u32le L ++ p)
      = (n % 256) :: (n / 256 % 256) :: (n / 65536 % 256) :: (n / 16777216 % 256)
        :: (u32le L ++ p) := by
    simp [u32le]
  rw [hshape]
  simp only [importBatches]
  have hmod : n % 256 + n / 256 % 256 * 256 + n / 65536 % 256 * 65536
      + n / 16777216 % 256 * 16777216 = n % 2 ^ 32 := by omega
  rw [hmod]
  obtain ⟨m, hm⟩ := Nat.exists_eq_succ_of_ne_zero hn
  rw [hm]
  have hrun : importSpanRecords (m + 1) [] (u32le L ++ p) = .error .truncPayload :=
    innerPayloadTrunc m [] L p hL hp
  split
  · next e heq => rw [hrun] at heq; simp at heq; rw [heq]
  · next records rest2 heq => rw [hrun] at heq; simp at heq

theorem importSpanRecords_no_corrupt : ∀ (remain : Nat) (acc : List (List Nat))
    (bytes : List Nat), importSpanRecords remain acc bytes ≠ .error .corruptSize := by
  intro remain acc bytes
  induction remain, acc, bytes using importSpanRecords.induct with
  | case1 acc bytes => simp [importSpanRecords]
  | case2 n acc => simp [importSpanRecords]
  | case3 n acc h0 => simp [importSpanRecords]
  | case4 n acc h0 h1 => simp [importSpanRecords]
  | case5 n acc h0 h1 h2 => simp [importSpanRecords]
  | case6 remain acc b0 b1 b2 b3 rest hneg => exfalso; simp [goIntOfUint32] at hneg; omega
  | case7 remain acc b0 b1 b2 b3 rest hneg hzero ih =>
    simp only [importSpanRecords, if_neg hneg, if_pos hzero]
    exact ih
  | case8 remain acc b0 b1 b2 b3 rest hneg hzero hshort =>
    simp only [importSpanRecords, if_neg hneg, if_neg hzero, if_pos hshort]
    simp
  | case9 remain acc b0 b1 b2 b3 rest hneg hzero hshort ih =>
    simp only [importSpanRecords, if_neg hneg, if_neg hzero, if_neg hshort]
    exact ih

theorem importBatches_no_corrupt (upload : List (List Nat) → Bool) :
    ∀ (bytes : List Nat) (acc : List (List (List Nat))),
    importBatches upload bytes acc ≠ .error .corruptSize := by
  intro bytes acc
  induction bytes, acc using importBatches.induct upload with
  | case1 acc => simp [importBatches]
  | case2 a x => simp [importBatches]
  | case3 a b x => simp [importBatches]
  | case4 a b c x => simp [importBatches]
  | case5 b0 b1 b2 b3 rest acc e heq =>
    simp only [importBatches]
    split
    · next e2 heq2 =>
      intro hcon
      simp only [Except.error.injEq] at hcon
      rw [hcon] at heq2
      exact importSpanRecords_no_corrupt _ _ _ heq2
    · next records rest2 heq2 => rw [heq] at heq2; simp at heq2
  | case6 b0 b1 b2 b3 rest acc records rest2 heq hlen hup ih =>
    simp only [importBatches]
    split
    · next e2 heq2 => rw [heq] at heq2; simp at heq2
    · next records2 rest22 heq2 =>
      rw [heq] at heq2
      simp only [Except.ok.injEq, Prod.mk.injEq] at heq2
      rw [← heq2.1, ← heq2.2]
      rw [if_pos hlen, if_pos hup]
      exact ih
  | case7 b0 b1 b2 b3 rest acc records rest2 heq hlen hup =>
    simp only [importBatches]
    split
    · next e2 heq2 => rw [heq] at heq2; simp at heq2
    · next records2 rest22 heq2 =>
      rw [heq] at heq2
      simp only [Except.ok.injEq, Prod.mk.injEq] at heq2
      rw [← heq2.1, ← heq2.2]
      rw [if_pos hlen, if_neg hup]
      simp
  | case8 b0 b1 b2 b3 rest acc records rest2 heq hlen ih =>
    simp only [importBatches]
    split
    · next e2 heq2 => rw [heq] at heq2; simp at heq2
    · next records2 rest22 heq2 =>
      rw [heq] at heq2
      simp only [Except.ok.injEq, Prod.mk.injEq] at heq2
      rw [← heq2.1, ← heq2.2]
      rw [if_neg hlen]
      exact ih

theorem importSpanRecords_zero_frame (remain : Nat) (acc : List (List Nat)) (rest : List Nat) :
    importSpanRecords (remain + 1) acc (u32le 0 ++ rest) =
      importSpanRecords (remain + 1) acc rest := by
  have hshape : u32le 0 ++ rest = 0 :: 0 :: 0 :: 0 :: rest := by simp [u32le]
  rw [hshape]
  simp only [importSpanRecords]
  simp [goIntOfUint32]

/-- C1 (amended): encoding a non-empty sequence of NON-EMPTY span-record byte strings (count and record lengths representable in 32 bits) with the Writer framing and decoding it with the Reader framing loop yields exactly that sequence, in order, as the single uploaded batch. -/
theorem framing_roundtrip_amended (upload : List (List Nat) → Bool) (rs : List (List Nat))
    (hne : rs ≠ []) (hcount : rs.length < 2 ^ 32)
    (hrec : ∀ r ∈ rs, r ≠ [] ∧ r.length < 2 ^ 32) (hup : upload rs = true) :
    importTraceFile upload (marshalFrames rs) = .ok [rs] := by
  rw [importTraceFile]
  rw [show marshalFrames rs = marshalFrames rs ++ [] by simp]
  rw [importBatches_marshal upload rs hne hcount hrec hup [] []]
  simp [importBatches]

/-- C1 (counterexample): the round-trip fails as stated for the sequence holding one empty record: the writer emits a zero length, the reader skips it as padding without counting it toward the declared count, and decoding ends in a truncation error instead of returning the sequence. -/
theorem framing_roundtrip_counterexample :
    importTraceFile (fun _ => true) (marshalFrames [[]]) = .error .truncSize ∧
    importTraceFile (fun _ => true) (marshalFrames [[]]) ≠ .ok [[[]]] := by
  have h : importTraceFile (fun _ => true) (marshalFrames [[]]) = .error .truncSize := by
    have h1 : marshalFrames [[]] = u32le 1 ++ (u32le 0 ++ []) := by
      simp [marshalFrames, framesOf, frameRecord]
    rw [importTraceFile, h1, importBatches_step]
    rw [show (1 : Nat) % 2 ^ 32 = 0 + 1 by rfl]
    rw [importSpanRecords_zero_frame 0 [] []]
    rw [show importSpanRecords (0 + 1) [] [] = .error .truncSize by simp [importSpanRecords]]
  exact ⟨h, by rw [h]; simp⟩

/-- C1 (witness): the amended round-trip evaluated at the concrete sequence of records 3 and 4-5. -/
theorem framing_roundtrip_witness :
    importTraceFile (fun _ => true) (marshalFrames [[3], [4, 5]]) = .ok [[[3], [4, 5]]] :=
  framing_roundtrip_amended (fun _ => true) [[3], [4, 5]] (by simp) (by simp)
    (by simp) (by simp)

/-- C3 (code bug): a record-length field whose unsigned value is at least 2 to the 31 is NOT rejected as a corrupt frame: with the 64-bit `int` of the platforms this module targets, `int(uint32)` is never negative, so the guard is dead; on the concrete stream declaring one record of length 0x80000000 the decoder attempts the payload read and fails with the truncation error, and no input whatsoever can produce the corrupt-frame error. -/
theorem negative_frame_length_not_rejected :
    importTraceFile (fun _ => true) [1, 0, 0, 0, 0, 0, 0, 128] = .error .truncPayload ∧
    (∀ (upload : List (List Nat) → Bool) (bytes : List Nat) (acc : List (List (List Nat))),
      importBatches upload bytes acc ≠ .error .corruptSize) := by
  constructor
  · have h1 : [1, 0, 0, 0, 0, 0, 0, 128] = u32le 1 ++ (u32le 2147483648 ++ ([] : List Nat)) := by
      simp [u32le]
    rw [importTraceFile, h1]
    exact batchHeaderThenPayloadTrunc _ 1 2147483648 [] [] (by norm_num) (by norm_num)
      (by norm_num)
  · exact fun upload bytes acc => importBatches_no_corrupt upload bytes acc

/-- C4: a zero length field consumes its 4 header bytes, no payload, produces no record, and leaves the remaining-record count unchanged, so the loop keeps reading headers; the concrete file whose batch declares one record and pads a zero-length frame before it decodes successfully. -/
theorem zero_length_frame_padding (remain : Nat) (acc : List (List Nat)) (rest : List Nat) :
    (importSpanRecords (remain + 1) acc (u32le 0 ++ rest) =
      importSpanRecords (remain + 1) acc rest) ∧
    importTraceFile (fun _ => true) (u32le 1 ++ (u32le 0 ++ frameRecord [7])) = .ok [[[7]]] := by
  refine ⟨importSpanRecords_zero_frame remain acc rest, ?_⟩
  rw [importTraceFile, importBatches_step]
  rw [show (1 : Nat) % 2 ^ 32 = 0 + 1 by rfl]
  rw [importSpanRecords_zero_frame 0 []]
  rw [show frameRecord [7] = u32le 1 ++ [7] by simp [frameRecord]]
  have h : importSpanRecords (0 + 1) [] (u32le 1 ++ [7]) = .ok ([[7]], []) := by
    have := importSpanRecords_frames [[7]] 0 [] [] (by simp)
    simp only [List.length_cons, List.length_nil, framesOf, frameRecord] at this
    simp only [importSpanRecords] at this
    simpa [frameRecord] using this
  rw [h]
  simp [importBatches]

/-- C5: end-of-input exactly at the start of a batch count field is a clean end of stream (all complete earlier batches processed and uploaded); end-of-input inside a count field, inside or at a length field with records still expected, or inside a payload is a truncation error. -/
theorem clean_eof_vs_truncation (upload : List (List Nat) → Bool)
    (bss : List (List (List Nat))) (hgood : GoodBatches upload bss) :
    importTraceFile upload (encodeBatches bss) = .ok bss ∧
    (∀ c : List Nat, c ≠ [] → c.length < 4 →
      importTraceFile upload (encodeBatches bss ++ c) = .error .truncCount) ∧
    (∀ (n : Nat) (c : List Nat), n % 2 ^ 32 ≠ 0 → c.length < 4 →
      importTraceFile upload (encodeBatches bss ++ (u32le n ++ c)) = .error .truncSize) ∧
    (∀ (n L : Nat) (p : List Nat), n % 2 ^ 32 ≠ 0 → L % 2 ^ 32 ≠ 0 → p.length < L % 2 ^ 32 →
      importTraceFile upload (encodeBatches bss ++ (u32le n ++ (u32le L ++ p)))
        = .error .truncPayload) := by
  refine ⟨?_, ?_, ?_, ?_⟩
  · rw [importTraceFile, show encodeBatches bss = encodeBatches bss ++ [] by simp]
    rw [importBatches_encodeBatches upload bss hgood [] []]
    simp [importBatches]
  · intro c hc hclen
    rw [importTraceFile, importBatches_encodeBatches upload bss hgood c []]
    exact readFourShort upload c bss hc hclen
  · intro n c hn hclen
    rw [importTraceFile, importBatches_encodeBatches upload bss hgood _ []]
    exact batchHeaderThenShort upload n c bss hn hclen
  · intro n L p hn hL hp
    rw [importTraceFile, importBatches_encodeBatches upload bss hgood _ []]
    exact batchHeaderThenPayloadTrunc upload n L p bss hn hL hp

/-- C5 (witness): the clean-EOF and truncation cases evaluated after one concrete complete batch. -/
theorem clean_eof_vs_truncation_witness :
    importTraceFile (fun _ => true) (encodeBatches [[[5]]]) = .ok [[[5]]] ∧
    importTraceFile (fun _ => true) (encodeBatches [[[5]]] ++ [9]) = .error .truncCount ∧
    importTraceFile (fun _ => true) (encodeBatches [[[5]]] ++ (u32le 1 ++ [0, 0]))
      = .error .truncSize ∧
    importTraceFile (fun _ => true) (encodeBatches [[[5]]] ++ (u32le 1 ++ (u32le 3 ++ [8])))
      = .error .truncPayload := by
  have h := clean_eof_vs_truncation (fun _ => true) [[[5]]]
    (by intro rs hrs; simp at hrs; subst hrs; refine ⟨by simp, by simp, by simp, by simp⟩)
  exact ⟨h.1, h.2.1 [9] (by simp) (by simp), h.2.2.1 1 [0, 0] (by norm_num) (by simp),
    h.2.2.2 1 3 [8] (by norm_num) (by norm_num) (by norm_num)⟩

/-- C8: folder replay equals, on every directory listing, the spec-side run that keeps exactly the non-directory entries whose names are not skipped, in listing order with no re-sorting, stopping at the first file whose replay errors; a name is skipped exactly when it is longer than one character and starts with an underscore or a dot, so the single-character names are not skipped. -/
theorem folder_replay_filtering (upload : List (List Nat) → Bool)
    (contents : List Char → List Nat) (entries : List DirEntry) :
    importTraceFolder upload contents entries
      = specReplayRun upload contents ((entries.filter specKeepEntry).map DirEntry.name) ∧
    skipEntryName ['_'] = false ∧
    skipEntryName ['.'] = false ∧
    (∀ (c : Char) (cs : List Char),
      skipEntryName (c :: cs) = (decide (cs.length + 1 > 1) && (c == '_' || c == '.'))) := by
  refine ⟨?_, by decide, by decide, fun c cs => rfl⟩
  induction entries with
  | nil => simp [importTraceFolder, specReplayRun]
  | cons e rest ih =>
    by_cases hd : e.isDir
    · simp [importTraceFolder, hd, specKeepEntry, ih]
    · by_cases hs : skipEntryName e.name
      · simp [importTraceFolder, hd, hs, specKeepEntry, ih]
      · have hk : specKeepEntry e = true := by simp [specKeepEntry, hd, hs]
        rw [show (e :: rest).filter specKeepEntry = e :: rest.filter specKeepEntry by
          simp [List.filter, hk]]
        simp only [List.map_cons]
        rw [show importTraceFolder upload contents (e :: rest)
            = (if e.isDir then importTraceFolder upload contents rest
               else if skipEntryName e.name then importTraceFolder upload contents rest
               else match importTraceFile upload (contents e.name) with
                 | .error err => ([e.name], some err)
                 | .ok _ =>
                   let r := importTraceFolder upload contents rest
                   (e.name :: r.1, r.2)) from rfl]
        rw [if_neg (by simp [hd]), if_neg (by simp [hs])]
        rw [show specReplayRun upload contents (e.name :: (rest.filter specKeepEntry).map DirEntry.name)
            = (match importTraceFile upload (contents e.name) with
               | .error err => ([e.name], some err)
               | .ok _ =>
                 let r := specReplayRun upload contents ((rest.filter specKeepEntry).map DirEntry.name)
                 (e.name :: r.1, r.2)) from rfl]
        cases h : importTraceFile upload (contents e.name) with
        | error err => simp
        | ok v => simp [ih]

theorem toInt32_eq_self (x : Int) (h1 : -(2 ^ 31) ≤ x) (h2 : x < 2 ^ 31) :
    toInt32 x = x := by
  unfold toInt32
  omega

theorem purgeLoop_fst_oracle (cfg : ExpCfg) (o o2 : ExpOracle) (base : Int) :
    ∀ offs : List Nat, (purgeLoop cfg o base offs).1 = (purgeLoop cfg o2 base offs).1 := by
  intro offs
  induction offs with
  | nil => rfl
  | cons off rest ih =>
    by_cases h : toInt32 (base - (off : Int)) < 0
    · simp [purgeLoop, h]
    · simp [purgeLoop, h, ih]

theorem purgeLoop_length (cfg : ExpCfg) (o : ExpOracle) (base : Int) :
    ∀ offs : List Nat, (purgeLoop cfg o base offs).1.length ≤ offs.length := by
  intro offs
  induction offs with
  | nil => simp [purgeLoop]
  | cons off rest ih =>
    by_cases h : toInt32 (base - (off : Int)) < 0
    · simp [purgeLoop, h]
    · simp [purgeLoop, h]
      omega

theorem purge_fst_oracle (cfg : ExpCfg) (o o2 : ExpOracle) (now : Nat) :
    (purgeRecentExpiredOutputFolders cfg o now).1
      = (purgeRecentExpiredOutputFolders cfg o2 now).1 := by
  unfold purgeRecentExpiredOutputFolders
  by_cases h : cfg.retainHours < 1
  · simp [h]
  · simp [h, purgeLoop_fst_oracle cfg o o2]

theorem prepareOutputFolder_fpOpen (cfg : ExpCfg) (o : ExpOracle) (x : ExpState) (h : Int) :
    (prepareOutputFolder cfg o x h).1.fpOpen = x.fpOpen := by
  by_cases hm : o.mkdirOk = false <;> simp [prepareOutputFolder, hm]

theorem openOutputFile_err_state (o : ExpOracle) (x : ExpState) (now : Nat)
    (evs : List FileEvent) (h : (openOutputFile o x now evs).2.2 = true) :
    (openOutputFile o x now evs).1 = x := by
  unfold openOutputFile at h ⊢
  split_ifs at h ⊢ <;> simp_all

theorem closeOutputFile_fpOpen (o : ExpOracle) (s : ExpState) :
    (closeOutputFile o s).1.fpOpen = false ∨
      ((closeOutputFile o s).1 = s ∧ s.fpOpen = false) := by
  by_cases hfp : s.fpOpen = false
  · right
    simp [closeOutputFile, hfp]
  · left
    simp [closeOutputFile, hfp]

theorem closeOutputFile_fpClosed (o : ExpOracle) (s : ExpState) :
    (closeOutputFile o s).1.fpOpen = false := by
  rcases closeOutputFile_fpOpen o s with h | ⟨h1, h2⟩
  · exact h
  · rw [h1]
    exact h2

theorem prepareOutputFp_err_closed (cfg : ExpCfg) (o : ExpOracle) (s : ExpState)
    (now : Nat) (rsz : Nat)
    (herr : (prepareOutputFp cfg o s now rsz).2.2 = true) :
    (prepareOutputFp cfg o s now rsz).1.fpOpen = false := by
  have hcfp := closeOutputFile_fpClosed o s
  by_cases hH : ((now / 3600 % 16777216 : Nat) : Int) = s.outputHour
  · by_cases hStay : s.currentSize ≠ 0 ∧ s.currentSize + rsz ≤ cfg.fileSizeLimit
    · simp [prepareOutputFp, hH, hStay] at herr
    · simp only [prepareOutputFp, if_pos hH, if_neg hStay] at herr ⊢
      by_cases he1 : (closeOutputFile o s).2.2 = true
      · simp only [if_pos he1] at herr ⊢
        exact hcfp
      · simp only [if_neg he1] at herr ⊢
        by_cases hfold : (closeOutputFile o s).1.outputFolderPath = ""
        · simp only [if_pos hfold] at herr ⊢
          by_cases he2 : (prepareOutputFolder cfg o (closeOutputFile o s).1
              ((now / 3600 % 16777216 : Nat) : Int)).2.2 = true
          · simp only [if_pos he2] at herr ⊢
            rw [prepareOutputFolder_fpOpen]
            exact hcfp
          · simp only [if_neg he2] at herr ⊢
            rw [openOutputFile_err_state _ _ _ _ herr, prepareOutputFolder_fpOpen]
            exact hcfp
        · simp only [if_neg hfold] at herr ⊢
          rw [openOutputFile_err_state _ _ _ _ herr]
          exact hcfp
  · simp only [prepareOutputFp, if_neg hH] at herr ⊢
    by_cases he1 : (closeOutputFile o s).2.2 = true ∨ (closeOutputFolder o (closeOutputFile o s).1).2 = true
    · simp only [if_pos he1] at herr ⊢
      exact hcfp
    · simp only [if_neg he1] at herr ⊢
      by_cases he2 : (prepareOutputFolder cfg o (closeOutputFile o s).1
          ((now / 3600 % 16777216 : Nat) : Int)).2.2 = true
      · simp only [if_pos he2] at herr ⊢
        rw [prepareOutputFolder_fpOpen]
        exact hcfp
      · simp only [if_neg he2] at herr ⊢
        rw [openOutputFile_err_state _ _ _ _ herr, prepareOutputFolder_fpOpen]
        exact hcfp

theorem initial_sizeInv : initialExpState.fpOpen = true → initialExpState.currentSize ≠ 0 := by
  intro h
  simp [initialExpState] at h

theorem exportSpans_preserves_sizeInv (cfg : ExpCfg) (o : ExpOracle) (w : Bool)
    (s : ExpState) (now : Nat) (records : List (List Nat))
    (hinv : s.fpOpen = true → s.currentSize ≠ 0) :
    (exportSpans cfg o w s now records).1.fpOpen = true →
      (exportSpans cfg o w s now records).1.currentSize ≠ 0 := by
  by_cases hlen : records.length = 0
  · simpa [exportSpans, hlen] using hinv
  · have hbuf : (marshalFrames records).length ≠ 0 := by
      simp [marshalFrames, hlen, u32le]
    simp only [exportSpans, if_neg hlen]
    by_cases he : (prepareOutputFp cfg o s now (marshalFrames records).length).2.2 = true
    · simp only [if_pos he]
      intro hfp
      rw [prepareOutputFp_err_closed cfg o s now (marshalFrames records).length he] at hfp
      simp at hfp
    · simp only [if_neg he]
      by_cases hfp : (prepareOutputFp cfg o s now (marshalFrames records).length).1.fpOpen = false
      · simp only [if_pos hfp]
        intro hcon
        rw [hcon] at hfp
        simp at hfp
      · simp only [if_neg hfp]
        intro _
        show (prepareOutputFp cfg o s now (marshalFrames records).length).1.currentSize
          + (marshalFrames records).length ≠ 0
        omega

/-- C2: a write request arriving in the current hour bucket with a file open, a non-zero size and a fitting total lands in the currently open file with no close, no index append and no serial change (the reachable form of the size-zero-or-fits rule, since an open file always has non-zero size, see the invariant lemmas above); and in the reachable size-zero state, where no handle is open, the batch is accepted into the file of the UNCHANGED serial regardless of the record size, again with no close and no index append. -/
theorem rotation_stay_open (cfg : ExpCfg) (o : ExpOracle) (w : Bool) (s : ExpState)
    (now : Nat) (records : List (List Nat))
    (hrec : records ≠ [])
    (hHour : ((now / 3600 % 16777216 : Nat) : Int) = s.outputHour) :
    (s.fpOpen = true → s.currentSize ≠ 0 →
      s.currentSize + (marshalFrames records).length ≤ cfg.fileSizeLimit →
      exportSpans cfg o w s now records =
        ({ s with
           outputLastWriteAt := now,
           currentSize := s.currentSize + (marshalFrames records).length },
         [FileEvent.writeBytes (marshalFrames records).length], !w)) ∧
    (s.fpOpen = false → s.currentSize = 0 → s.outputFolderPath ≠ "" →
      s.outputSn ≤ outputSnBoundary → o.openOk = true →
      exportSpans cfg o w s now records =
        ({ s with
           outputFileName := makeOutputFileName s.outputSn,
           fpOpen := true,
           outputStartAt := now,
           outputLastWriteAt := now,
           currentSize := (marshalFrames records).length },
         [FileEvent.openFile (s.outputFolderPath ++ "/" ++ makeOutputFileName s.outputSn),
          FileEvent.writeBytes (marshalFrames records).length], !w)) := by
  have hlen : ¬records.length = 0 := by simpa using hrec
  constructor
  · intro hopen hsz hfit
    simp only [exportSpans, prepareOutputFp, if_neg hlen, if_pos hHour,
      if_pos (And.intro hsz hfit)]
    simp [hopen]
  · intro hclosed hsz hfolder hsn hopenok
    have hnostay : ¬(s.currentSize ≠ 0 ∧
        s.currentSize + (marshalFrames records).length ≤ cfg.fileSizeLimit) := by
      simp [hsz]
    have hsnlt : ¬outputSnBoundary < s.outputSn := not_lt.mpr hsn
    simp only [exportSpans, prepareOutputFp, if_neg hlen, if_pos hHour, if_neg hnostay]
    simp [closeOutputFile, openOutputFile, hclosed, hsz, hfolder, hopenok, hsnlt]

set_option maxRecDepth 4000 in
set_option maxHeartbeats 1600000 in
/-- C2 (witness): both rules evaluated at concrete states; in the second the encoded batch of 1029 bytes exceeds the 1024-byte limit and is still accepted into the empty file. -/
theorem rotation_stay_open_witness :
    exportSpans ⟨"b", 0, 2048⟩ ⟨true, true, true, true, true, true⟩ true
      ⟨"b/f", "b/f/_index", 2, 0, "0001", true, 0, 0, 10⟩ 7200 [[1]]
      = (⟨"b/f", "b/f/_index", 2, 0, "0001", true, 0, 7200, 19⟩,
         [FileEvent.writeBytes 9], false) ∧
    exportSpans ⟨"b", 0, 1024⟩ ⟨true, true, true, true, true, true⟩ true
      ⟨"b/f", "b/f/_index", 2, 5, "", false, 0, 0, 0⟩ 7200 (List.replicate 205 [1])
      = (⟨"b/f", "b/f/_index", 2, 5, makeOutputFileName 5, true, 7200, 7200, 1029⟩,
         [FileEvent.openFile ("b/f" ++ "/" ++ makeOutputFileName 5),
          FileEvent.writeBytes 1029], false) := by
  constructor
  · exact (rotation_stay_open ⟨"b", 0, 2048⟩ ⟨true, true, true, true, true, true⟩ true
      ⟨"b/f", "b/f/_index", 2, 0, "0001", true, 0, 0, 10⟩ 7200 [[1]]
      (by decide) (by decide)).1 (by decide) (by decide) (by decide)
  · exact (rotation_stay_open ⟨"b", 0, 1024⟩ ⟨true, true, true, true, true, true⟩ true
      ⟨"b/f", "b/f/_index", 2, 5, "", false, 0, 0, 0⟩ 7200 (List.replicate 205 [1])
      (by decide) (by decide)).2 (by decide) (by decide) (by decide) (by decide) (by decide)

/-- C6: when the serial number about to be used for the next file exceeds 0x7FFFFFFD, the rotation closes the full file but opens no new one and the export returns success with no bytes written and no file opened. -/
theorem serial_exhaustion_silent_drop (cfg : ExpCfg) (o : ExpOracle) (w : Bool)
    (s : ExpState) (now : Nat) (records : List (List Nat))
    (hrec : records ≠ [])
    (hHour : ((now / 3600 % 16777216 : Nat) : Int) = s.outputHour)
    (hopen : s.fpOpen = true)
    (hnostay : ¬(s.currentSize ≠ 0 ∧
      s.currentSize + (marshalFrames records).length ≤ cfg.fileSizeLimit))
    (hclose : o.closeOk = true) (hindex : o.indexOk = true)
    (hfolder : s.outputFolderPath ≠ "")
    (hsn : s.outputSn + 1 > outputSnBoundary) :
    exportSpans cfg o w s now records =
      ({ s with fpOpen := false, currentSize := 0, outputSn := s.outputSn + 1 },
       [FileEvent.closeFile s.outputFileName, FileEvent.indexAppend s.outputFileName],
       false) ∧
    (∀ n, FileEvent.writeBytes n
      ∉ [FileEvent.closeFile s.outputFileName, FileEvent.indexAppend s.outputFileName]) ∧
    (∀ p, FileEvent.openFile p
      ∉ [FileEvent.closeFile s.outputFileName, FileEvent.indexAppend s.outputFileName]) := by
  have hlen : ¬records.length = 0 := by simpa using hrec
  refine ⟨?_, by simp, by simp⟩
  simp only [exportSpans, prepareOutputFp, if_neg hlen, if_pos hHour, if_neg hnostay]
  simp [closeOutputFile, openOutputFile, hopen, hclose, hindex, hfolder, hsn]

/-- C6 (witness): the safety valve evaluated at serial 0x7FFFFFFD. -/
theorem serial_exhaustion_silent_drop_witness :
    exportSpans ⟨"b", 0, 50⟩ ⟨true, true, true, true, true, true⟩ true
      ⟨"b/f", "b/f/_index", 0, 2147483645, "vvvvvvv", true, 0, 0, 100⟩ 0 [[1]]
      = (⟨"b/f", "b/f/_index", 0, 2147483646, "vvvvvvv", false, 0, 0, 0⟩,
         [FileEvent.closeFile "vvvvvvv", FileEvent.indexAppend "vvvvvvv"], false) ∧
    (∀ n, FileEvent.writeBytes n
      ∉ [FileEvent.closeFile "vvvvvvv", FileEvent.indexAppend "vvvvvvv"]) := by
  have h := serial_exhaustion_silent_drop ⟨"b", 0, 50⟩ ⟨true, true, true, true, true, true⟩
    true ⟨"b/f", "b/f/_index", 0, 2147483645, "vvvvvvv", true, 0, 0, 100⟩ 0 [[1]]
    (by decide) (by decide) (by decide) (by decide) (by decide) (by decide) (by decide)
    (by decide)
  exact ⟨h.1, h.2.1⟩

/-- C9: when the disk write of the encoded buffer fails, the export returns an error yet leaves exactly the state of a successful write: the accumulated size grows by the full buffer length and the last-write timestamp is set; nothing is rolled back. -/
theorem write_failure_state_update (cfg : ExpCfg) (o : ExpOracle) (s : ExpState)
    (now : Nat) (records : List (List Nat))
    (hrec : records ≠ [])
    (hprep : (prepareOutputFp cfg o s now (marshalFrames records).length).2.2 = false)
    (hfp : (prepareOutputFp cfg o s now (marshalFrames records).length).1.fpOpen = true) :
    (exportSpans cfg o false s now records).1 = (exportSpans cfg o true s now records).1 ∧
    (exportSpans cfg o false s now records).2.2 = true ∧
    (exportSpans cfg o true s now records).2.2 = false ∧
    (exportSpans cfg o false s now records).1.currentSize
      = (prepareOutputFp cfg o s now (marshalFrames records).length).1.currentSize
        + (marshalFrames records).length ∧
    (exportSpans cfg o false s now records).1.outputLastWriteAt = now := by
  have hlen : ¬records.length = 0 := by simpa using hrec
  simp [exportSpans, hlen, hprep, hfp]

/-- C9 (witness): the failed and successful writes compared at a concrete fresh state. -/
theorem write_failure_state_update_witness :
    (exportSpans ⟨"b", 0, 2048⟩ ⟨true, true, true, true, true, true⟩ false
        ⟨"", "", 0, 0, "", false, 0, 0, 0⟩ 7200 [[1]]).1
      = (exportSpans ⟨"b", 0, 2048⟩ ⟨true, true, true, true, true, true⟩ true
        ⟨"", "", 0, 0, "", false, 0, 0, 0⟩ 7200 [[1]]).1 ∧
    (exportSpans ⟨"b", 0, 2048⟩ ⟨true, true, true, true, true, true⟩ false
        ⟨"", "", 0, 0, "", false, 0, 0, 0⟩ 7200 [[1]]).2.2 = true ∧
    (exportSpans ⟨"b", 0, 2048⟩ ⟨true, true, true, true, true, true⟩ true
        ⟨"", "", 0, 0, "", false, 0, 0, 0⟩ 7200 [[1]]).2.2 = false ∧
    (exportSpans ⟨"b", 0, 2048⟩ ⟨true, true, true, true, true, true⟩ false
        ⟨"", "", 0, 0, "", false, 0, 0, 0⟩ 7200 [[1]]).1.currentSize
      = (prepareOutputFp ⟨"b", 0, 2048⟩ ⟨true, true, true, true, true, true⟩
          ⟨"", "", 0, 0, "", false, 0, 0, 0⟩ 7200 (marshalFrames [[1]]).length).1.currentSize
        + (marshalFrames [[1]]).length ∧
    (exportSpans ⟨"b", 0, 2048⟩ ⟨true, true, true, true, true, true⟩ false
        ⟨"", "", 0, 0, "", false, 0, 0, 0⟩ 7200 [[1]]).1.outputLastWriteAt = 7200 :=
  write_failure_state_update ⟨"b", 0, 2048⟩ ⟨true, true, true, true, true, true⟩
    ⟨"", "", 0, 0, "", false, 0, 0, 0⟩ 7200 [[1]] (by decide) (by decide) (by decide)

/-- C7: retention purge is a no-op when retainHours is below 1; it attempts at most 2 removals; within int32 range it removes exactly the folders of hours currentHour - retainHours - 1 and that value minus 1, each masked to 24 bits, stopping at the first negative hour; and the rotation outcome of prepareOutputFp is identical whether folder removal succeeds or fails. -/
theorem purge_bound_and_no_abort (cfg : ExpCfg) (o : ExpOracle) (now : Nat) :
    (cfg.retainHours < 1 → purgeRecentExpiredOutputFolders cfg o now = ([], false)) ∧
    (purgeRecentExpiredOutputFolders cfg o now).1.length ≤ 2 ∧
    (1 ≤ cfg.retainHours → cfg.retainHours ≤ 8760 → ((now / 3600 : Nat) : Int) < 2 ^ 31 →
      (purgeRecentExpiredOutputFolders cfg o now).1 =
        (if ((now / 3600 : Nat) : Int) - cfg.retainHours - 1 < 0 then []
         else if ((now / 3600 : Nat) : Int) - cfg.retainHours - 1 - 1 < 0 then
           [FileEvent.removeFolder (makeOutputFolderPath cfg.baseFolderPath
             ((((now / 3600 : Nat) : Int) - cfg.retainHours - 1) % 16777216))]
         else
           [FileEvent.removeFolder (makeOutputFolderPath cfg.baseFolderPath
              ((((now / 3600 : Nat) : Int) - cfg.retainHours - 1) % 16777216)),
            FileEvent.removeFolder (makeOutputFolderPath cfg.baseFolderPath
              ((((now / 3600 : Nat) : Int) - cfg.retainHours - 1 - 1) % 16777216))])) ∧
    (∀ (b : Bool) (s : ExpState) (sz : Nat),
      prepareOutputFp cfg { o with removeOk := b } s now sz
        = prepareOutputFp cfg o s now sz) := by
  refine ⟨?_, ?_, ?_, ?_⟩
  · intro h
    simp [purgeRecentExpiredOutputFolders, h]
  · by_cases h : cfg.retainHours < 1
    · simp [purgeRecentExpiredOutputFolders, h]
    · simp only [purgeRecentExpiredOutputFolders, if_neg h]
      exact le_trans (purgeLoop_length cfg o _ _) (by simp [purgeRangeCount])
  · intro hR1 hR2 hnow
    have hx0 : (0 : Int) ≤ ((now / 3600 : Nat) : Int) := by omega
    have hcur : toInt32 ((now / 3600 : Nat) : Int) = ((now / 3600 : Nat) : Int) :=
      toInt32_eq_self _ (by omega) hnow
    have hbase : toInt32 (((now / 3600 : Nat) : Int) - cfg.retainHours - 1)
        = ((now / 3600 : Nat) : Int) - cfg.retainHours - 1 :=
      toInt32_eq_self _ (by omega) (by omega)
    have hbase1 : toInt32 (((now / 3600 : Nat) : Int) - cfg.retainHours - 1 - 1)
        = ((now / 3600 : Nat) : Int) - cfg.retainHours - 1 - 1 :=
      toInt32_eq_self _ (by omega) (by omega)
    simp only [purgeRecentExpiredOutputFolders, if_neg (by omega : ¬cfg.retainHours < 1)]
    rw [hcur, hbase]
    rw [show List.range purgeRangeCount = [0, 1] from rfl]
    simp only [purgeLoop, Nat.cast_zero, Nat.cast_one, sub_zero]
    rw [hbase, hbase1]
    split_ifs <;> simp_all
  · intro b s sz
    cases o with
    | mk c i t m op r =>
      simp only [prepareOutputFp, closeOutputFile, closeOutputFolder, prepareOutputFolder,
        openOutputFile]
      rw [purge_fst_oracle cfg (ExpOracle.mk c i t m op b) (ExpOracle.mk c i t m op r) now]

/-- C7 (witness): purge evaluated at hour 10 with a 2-hour retention removes exactly the folders of hours 7 and 6. -/
theorem purge_bound_and_no_abort_witness :
    (purgeRecentExpiredOutputFolders ⟨"b", 2, 2048⟩
        ⟨true, true, true, true, true, true⟩ 36000).1.length ≤ 2 ∧
    (purgeRecentExpiredOutputFolders ⟨"b", 2, 2048⟩
        ⟨true, true, true, true, true, true⟩ 36000).1
      = [FileEvent.removeFolder (makeOutputFolderPath "b" 7),
         FileEvent.removeFolder (makeOutputFolderPath "b" 6)] := by
  have h := purge_bound_and_no_abort ⟨"b", 2, 2048⟩ ⟨true, true, true, true, true, true⟩ 36000
  refine ⟨h.2.1, ?_⟩
  have h3 := h.2.2.1 (by decide) (by decide) (by decide)
  rw [h3]
  norm_num

theorem b32EncodeValue_two (v : Nat) :
    b32EncodeValue 2 v
      = [v * 16 / 32768 % 32, v * 16 / 1024 % 32, v * 16 / 32 % 32, v * 16 % 32] := by
  simp only [b32EncodeValue]
  norm_num
  rw [show List.range 4 = [0, 1, 2, 3] from rfl]
  simp [List.map]

theorem b32EncodeValue_four (v : Nat) :
    b32EncodeValue 4 v
      = [v * 8 / 1073741824 % 32, v * 8 / 33554432 % 32, v * 8 / 1048576 % 32,
         v * 8 / 32768 % 32, v * 8 / 1024 % 32, v * 8 / 32 % 32, v * 8 % 32] := by
  simp only [b32EncodeValue]
  norm_num
  rw [show List.range 7 = [0, 1, 2, 3, 4, 5, 6] from rfl]
  simp [List.map]

theorem b32Digit_inj : ∀ a, a < 32 → ∀ b, b < 32 → b32Digit a = b32Digit b → a = b := by
  decide

theorem b32EncodeValue_lt (n v : Nat) : ∀ x ∈ b32EncodeValue n v, x < 32 := by
  intro x hx
  simp only [b32EncodeValue, List.mem_map, List.mem_range] at hx
  obtain ⟨i, _, hi⟩ := hx
  omega

theorem mapDigit_inj : ∀ (l1 l2 : List Nat), (∀ x ∈ l1, x < 32) → (∀ x ∈ l2, x < 32) →
    l1.map b32Digit = l2.map b32Digit → l1 = l2 := by
  intro l1
  induction l1 with
  | nil =>
    intro l2 _ _ h
    simp at h
    simp [h]
  | cons a t ih =>
    intro l2 h1 h2 h
    match l2 with
    | [] => simp at h
    | b :: t2 =>
      simp only [List.map_cons, List.cons.injEq] at h
      have ha : a = b := b32Digit_inj a (h1 a (by simp)) b (h2 b (by simp)) h.1
      have ht : t = t2 := ih t2 (fun x hx => h1 x (by simp [hx]))
        (fun x hx => h2 x (by simp [hx])) h.2
      rw [ha, ht]

set_option maxHeartbeats 1000000 in
/-- C10: serials up to 0xFFFF yield 4-character names and larger serials 7-character names, and the naming function is injective on the whole serial range up to 0x7FFFFFFD. -/
theorem file_name_injective (s1 s2 : Int)
    (h1 : 0 ≤ s1) (h1b : s1 ≤ outputSnBoundary) (h2 : 0 ≤ s2) (h2b : s2 ≤ outputSnBoundary) :
    ((s1 ≤ 0xFFFF → (makeOutputFileName s1).length = 4) ∧
     (0xFFFF < s1 → (makeOutputFileName s1).length = 7)) ∧
    (makeOutputFileName s1 = makeOutputFileName s2 → s1 = s2) := by
  have hlen4 : ∀ z : Int, z ≤ 0xFFFF → (makeOutputFileName z).length = 4 := by
    intro z hz
    rw [makeOutputFileName, if_neg (not_lt.mpr hz)]
    rw [show (String.mk ((b32EncodeValue 2 (toUInt16Nat z)).map b32Digit)).length
        = ((b32EncodeValue 2 (toUInt16Nat z)).map b32Digit).length from rfl]
    rw [b32EncodeValue_two]
    simp
  have hlen7 : ∀ z : Int, 0xFFFF < z → (makeOutputFileName z).length = 7 := by
    intro z hz
    rw [makeOutputFileName, if_pos hz]
    rw [show (String.mk ((b32EncodeValue 4 (toUInt32Nat z)).map b32Digit)).length
        = ((b32EncodeValue 4 (toUInt32Nat z)).map b32Digit).length from rfl]
    rw [b32EncodeValue_four]
    simp
  refine ⟨⟨fun h => hlen4 s1 h, fun h => hlen7 s1 h⟩, ?_⟩
  intro heq
  by_cases c1 : s1 > 0xFFFF
  · by_cases c2 : s2 > 0xFFFF
    · rw [makeOutputFileName, if_pos c1, makeOutputFileName, if_pos c2] at heq
      rw [String.ext_iff] at heq
      simp only [] at heq
      have heq2 : (b32EncodeValue 4 (toUInt32Nat s1)).map b32Digit
          = (b32EncodeValue 4 (toUInt32Nat s2)).map b32Digit := heq
      have hval := mapDigit_inj _ _ (b32EncodeValue_lt 4 _) (b32EncodeValue_lt 4 _) heq2
      rw [b32EncodeValue_four, b32EncodeValue_four] at hval
      simp only [List.cons.injEq, and_true] at hval
      have hv1 : toUInt32Nat s1 = (s1 % 4294967296).toNat := rfl
      have hv2 : toUInt32Nat s2 = (s2 % 4294967296).toNat := rfl
      rw [hv1, hv2] at hval
      unfold outputSnBoundary at h1b h2b
      omega
    · exfalso
      have e1 := hlen7 s1 c1
      have e2 := hlen4 s2 (not_lt.mp c2)
      rw [heq] at e1
      omega
  · by_cases c2 : s2 > 0xFFFF
    · exfalso
      have e1 := hlen4 s1 (not_lt.mp c1)
      have e2 := hlen7 s2 c2
      rw [heq] at e1
      omega
    · rw [makeOutputFileName, if_neg c1, makeOutputFileName, if_neg c2] at heq
      rw [String.ext_iff] at heq
      simp only [] at heq
      have heq2 : (b32EncodeValue 2 (toUInt16Nat s1)).map b32Digit
          = (b32EncodeValue 2 (toUInt16Nat s2)).map b32Digit := heq
      have hval := mapDigit_inj _ _ (b32EncodeValue_lt 2 _) (b32EncodeValue_lt 2 _) heq2
      rw [b32EncodeValue_two, b32EncodeValue_two] at hval
      simp only [List.cons.injEq, and_true] at hval
      have hv1 : toUInt16Nat s1 = (s1 % 65536).toNat := rfl
      have hv2 : toUInt16Nat s2 = (s2 % 65536).toNat := rfl
      rw [hv1, hv2] at hval
      simp only [not_lt] at c1 c2
      omega

/-- C10 (witness): the name lengths and injectivity instantiated at serials 2 and 70000. -/
theorem file_name_injective_witness :
    (((2 : Int) ≤ 0xFFFF → (makeOutputFileName 2).length = 4) ∧
     (0xFFFF < (2 : Int) → (makeOutputFileName 2).length = 7)) ∧
    (makeOutputFileName 2 = makeOutputFileName 70000 → (2 : Int) = 70000) :=
  file_name_injective 2 70000 (by decide) (by decide) (by decide) (by decide)

end OtelExporterFiles
